import Mathlib

/-!
Verification development for the Jinkies feed monitor.

The definitions below are a shallow embedding of the Python sources
(`src/models.py`, `src/config.py`, `src/credential_store.py`,
`src/url_validation.py`, `src/feed_poller.py`, `src/feed_import.py`).
Python strings are modelled as Lean `String`s, with the string
operations the code uses re-implemented structurally on `List Char`
so that every definition evaluates by kernel reduction.  Machine
effects (keyring writes, network requests, Qt signal emissions) are
made explicit as returned values or event lists.
-/

namespace Jinkies

/-! ## Python string-operation models (on `List Char`) -/

/-- Model of Python `s.startswith(pat)` on char lists: `pat` is the pattern. -/
def startsWithL : List Char → List Char → Bool
  | [], _ => true
  | _ :: _, [] => false
  | p :: ps, c :: cs => p = c && startsWithL ps cs

/-- Model of Python `s.startswith(pat)` on strings. -/
def strStartsWith (s pat : String) : Bool :=
  startsWithL pat.toList s.toList

/-- Model of Python `pat in s` (substring test) on char lists. -/
def containsSubL (pat : List Char) : List Char → Bool
  | [] => pat.isEmpty
  | c :: cs => startsWithL pat (c :: cs) || containsSubL pat cs

/-- Model of Python `pat in s` on strings. -/
def strContainsSub (s pat : String) : Bool :=
  containsSubL pat.toList s.toList

/-- Drop the longest run of characters satisfying `p` from the end. -/
def dropTrailing (p : Char → Bool) (cs : List Char) : List Char :=
  (cs.reverse.dropWhile p).reverse

/-- Model of Python `s.strip(set)`: drop matching chars from both ends. -/
def pyStrip (p : Char → Bool) (cs : List Char) : List Char :=
  dropTrailing p (cs.dropWhile p)

/-- The character class stripped by Python `str.strip()` with no argument
(ASCII portion: space, tab, linefeed, return, vertical tab, form feed). -/
def isPySpace (c : Char) : Bool :=
  c = ' ' || c = '\t' || c = '\n' || c = '\r' || c.toNat = 11 || c.toNat = 12

/-- Model of Python `s.split(sep)` for a one-character separator
(`"".split(sep) == [""]`, empty fields preserved). -/
def splitOnChar (sep : Char) : List Char → List (List Char)
  | [] => [[]]
  | c :: rest =>
    match splitOnChar sep rest with
    | [] => [[]]
    | g :: gs => if c = sep then [] :: g :: gs else (c :: g) :: gs

/-- Model of Python `sep.join(parts)` on char lists. -/
def joinWithSep (sep : List Char) : List (List Char) → List Char
  | [] => []
  | [x] => x
  | x :: y :: rest => x ++ sep ++ joinWithSep sep (y :: rest)

/-- Model of Python `s.removeprefix(pre)`. -/
def removePrefixL (pre cs : List Char) : List Char :=
  if startsWithL pre cs then cs.drop pre.length else cs

/-! ## `src/models.py` -/

/-- `Feed` dataclass from `src/models.py`. -/
structure Feed where
  url : String
  name : String
  enabled : Bool := true
  sound_file : Option String := none
  last_poll_time : Option String := none
  auth_user : Option String := none
  auth_token : Option String := none
deriving DecidableEq

/-- `FeedEntry` dataclass from `src/models.py`. -/
structure FeedEntry where
  feed_url : String
  title : String
  link : String
  published : String
  entry_id : String
  seen : Bool := false
deriving DecidableEq

/-- JSON values, the target of the `to_dict` serializers. -/
inductive JVal where
  | jstr (s : String)
  | jbool (b : Bool)
  | jnull
  | jint (n : Int)
  | jarr (xs : List JVal)
  | jobj (fields : List (String × JVal))

/-- A Python `str | None` value as JSON. -/
def optStr : Option String → JVal
  | none => .jnull
  | some s => .jstr s

/-- `Feed.to_dict` from `src/models.py` (lines 35-49): emits all seven
fields, including `auth_user` and `auth_token`, verbatim. -/
def Feed.to_dict (f : Feed) : List (String × JVal) :=
  [("url", .jstr f.url),
   ("name", .jstr f.name),
   ("enabled", .jbool f.enabled),
   ("sound_file", optStr f.sound_file),
   ("last_poll_time", optStr f.last_poll_time),
   ("auth_user", optStr f.auth_user),
   ("auth_token", optStr f.auth_token)]

/-- `AppConfig` dataclass from `src/models.py`. -/
structure AppConfig where
  poll_interval_secs : Int := 60
  feeds : List Feed := []
  sound_map : List (String × String) := [("new_entry", "new_entry.wav"), ("error", "error.wav")]
  notification_style : String := "native"
deriving DecidableEq

/-- `AppConfig.to_dict` from `src/models.py` (lines 146-157). -/
def AppConfig.to_dict (c : AppConfig) : List (String × JVal) :=
  [("poll_interval_secs", .jint c.poll_interval_secs),
   ("feeds", .jarr (c.feeds.map (fun f => .jobj f.to_dict))),
   ("sound_map", .jobj (c.sound_map.map (fun kv => (kv.1, .jstr kv.2)))),
   ("notification_style", .jstr c.notification_style)]

/-- `save_config` from `src/config.py` (lines 151-159) writes exactly
`config.to_dict()` as JSON (via the atomic `_write_json`); this is the
JSON document that reaches disk. -/
def save_config_json (c : AppConfig) : JVal :=
  .jobj c.to_dict

/-! ## `src/credential_store.py` -/

/-- `_service_name` from `src/credential_store.py`. -/
def service_name (feed_url : String) : String :=
  "jinkies:" ++ feed_url

/-- `_require_https` from `src/credential_store.py` (lines 31-45):
raises `ValueError` (modelled as `.error`) for non-HTTPS URLs. -/
def require_https (feed_url : String) : Except String Unit :=
  if !(strStartsWith feed_url "https://") then
    .error ("Refusing to store credentials for non-HTTPS URL: " ++ feed_url ++
      ". Credentials must only be sent over encrypted connections.")
  else
    .ok ()

/-- `store_credentials` from `src/credential_store.py` (lines 48-63),
with the keyring writes made explicit: on success it performs exactly
the two `keyring.set_password` calls, in order, modelled as
`(service, field, value)` triples. -/
def store_credentials (feed_url username token : String) :
    Except String (List (String × String × String)) :=
  match require_https feed_url with
  | .error e => .error e
  | .ok _ =>
    .ok [(service_name feed_url, "username", username),
         (service_name feed_url, "token", token)]

/-- The backing secret store: an association of (service, field) to value. -/
def SecretStore := List ((String × String) × String)

/-- One `keyring.set_password` call applied to the store (silent overwrite). -/
def setPassword (st : SecretStore) (service field value : String) : SecretStore :=
  ((service, field), value) ::
    (st.filter (fun kv => decide (kv.1 ≠ (service, field))))

/-- The secret store after a `store_credentials` call: unchanged when the
call raises, otherwise with both writes applied. -/
def store_credentials_result (st : SecretStore) (feed_url username token : String) :
    SecretStore :=
  match store_credentials feed_url username token with
  | .error _ => st
  | .ok ws => ws.foldl (fun acc w => setPassword acc w.1 w.2.1 w.2.2) st

/-! ## `src/url_validation.py` (with the relevant slice of CPython `urllib.parse`) -/

/-- The characters CPython's `urlsplit` strips from the front of the URL
(WHATWG C0 controls and space, i.e. code points `≤ 0x20`). -/
def isC0orSpace (c : Char) : Bool :=
  c.toNat ≤ 32

/-- CPython `urlsplit` removes every tab, carriage return and linefeed
from the URL before parsing. -/
def isUnsafeUrlByte (c : Char) : Bool :=
  c = '\t' || c = '\r' || c = '\n'

/-- The characters admitted in a URL scheme by CPython
(`scheme_chars`: ASCII letters, digits, `+`, `-`, `.`). -/
def isSchemeChar (c : Char) : Bool :=
  (c.isAlpha && c.toNat < 128) || c.isDigit || c = '+' || c = '-' || c = '.'

/-- Scheme and network location, the parts of CPython's `SplitResult`
that `validate_feed_url` consults. -/
structure UrlSplitOut where
  scheme : String
  netloc : String
deriving DecidableEq

/-- Model of CPython `urllib.parse.urlsplit` restricted to the
`scheme`/`netloc` components: left-strip C0 controls and space, remove
tab/CR/LF, split off a scheme `<alpha><scheme_chars>*:`, then read the
netloc after a leading `//` up to the first `/`, `?` or `#`. -/
def urlsplit (url : String) : UrlSplitOut :=
  let cs := ((url.toList.dropWhile isC0orSpace).filter (fun c => !isUnsafeUrlByte c))
  let pre := cs.takeWhile (fun c => c ≠ ':')
  let hasColon := pre.length < cs.length
  let schemeOk :=
    hasColon && !pre.isEmpty &&
      (match pre with
       | c :: _ => c.isAlpha && c.toNat < 128
       | [] => false) &&
      pre.all isSchemeChar
  let scheme := if schemeOk then pre.map Char.toLower else []
  let rest := if schemeOk then cs.drop (pre.length + 1) else cs
  let netloc :=
    if startsWithL ['/', '/'] rest then
      (rest.drop 2).takeWhile (fun c => c ≠ '/' && c ≠ '?' && c ≠ '#')
    else []
  ⟨String.mk scheme, String.mk netloc⟩

/-- `validate_feed_url` from `src/url_validation.py` (lines 14-33).
Returns `some errorMessage` when invalid, `none` when acceptable.
(Python `url.strip()` is modelled by `pyStrip isPySpace`.) -/
def validate_feed_url (url : String) : Option String :=
  if url = "" || (pyStrip isPySpace url.toList).isEmpty then
    some "URL must not be empty."
  else
    let parsed := urlsplit url
    if !(parsed.scheme = "http" || parsed.scheme = "https") then
      some ("URL scheme '" ++ parsed.scheme ++ "' is not allowed. " ++
        "Only http:// and https:// feed URLs are supported.")
    else if parsed.netloc = "" then
      some "URL must include a hostname."
    else
      none

/-! ## `src/feed_poller.py` -/

/-- One entry of a `feedparser` result, the fields the code reads
(`id`, `link`, `title`, `published`, `updated`); `none` models an
absent dictionary key. -/
structure ParsedEntry where
  id : Option String := none
  link : Option String := none
  title : Option String := none
  published : Option String := none
  updated : Option String := none
deriving DecidableEq

/-- One element of `parsed.feed.links`: the fields read are `rel` and `href`. -/
structure LinkInfo where
  rel : Option String := none
  href : Option String := none
deriving DecidableEq

/-- A `feedparser` parse result, the fields the code reads:
`bozo`, `bozo_exception` (modelled by its message, `none` when falsy),
`entries`, `feed.title` and `feed.links`. -/
structure ParsedDoc where
  bozo : Bool := false
  bozo_exception : Option String := none
  entries : List ParsedEntry := []
  feed_title : Option String := none
  feed_links : List LinkInfo := []
deriving DecidableEq

/-- The plan of effects of `FeedPoller._fetch_feed`
(`src/feed_poller.py` lines 125-163): refuse with a `ValueError`
message (no network), fetch with Basic auth then parse the bytes, or
hand the URL straight to `feedparser.parse`. -/
inductive FetchPlan where
  | refuse (msg : String)
  | authGet (url username token : String)
  | directParse (url : String)
deriving DecidableEq

/-- `FeedPoller._fetch_feed` on a feed URL, given the result of
`get_credentials(feed.url)`: the decision logic of lines 145-163. -/
def fetch_feed_plan (creds : Option (String × String)) (url : String) : FetchPlan :=
  match creds with
  | some (username, token) =>
    if !(strStartsWith url "https://") then
      .refuse ("Refusing to send credentials over insecure HTTP for feed: " ++ url)
    else
      .authGet url username token
  | none => .directParse url

/-- The URLs a fetch plan issues a network request to (the `refuse`
branch raises before any request). -/
def FetchPlan.networkRequests : FetchPlan → List String
  | .refuse _ => []
  | .authGet url _ _ => [url]
  | .directParse url => [url]

/-- The Qt signals `_poll_feed` can emit, with their payloads. -/
inductive PollEvent where
  | newEntriesFound (entries : List FeedEntry)
  | feedError (url msg : String)
  | pollComplete
deriving DecidableEq

/-- The entry-loop body of `_poll_feed` (lines 99-115): walk the parsed
entries in order, skip unidentifiable or already-seen ids, otherwise add
the id to `seen_ids` and collect a `FeedEntry`.  Returns the grown seen
set and the collected new entries, in parser order. -/
def processEntries (feed_url : String) : List ParsedEntry → List String →
    List String × List FeedEntry
  | [], seen => (seen, [])
  | e :: rest, seen =>
    let entry_id := e.id.getD (e.link.getD "")
    if entry_id = "" || seen.contains entry_id then
      processEntries feed_url rest seen
    else
      let fe : FeedEntry :=
        { feed_url := feed_url,
          title := e.title.getD "Untitled",
          link := e.link.getD "",
          published := e.published.getD (e.updated.getD ""),
          entry_id := entry_id,
          seen := false }
      let out := processEntries feed_url rest (entry_id :: seen)
      (out.1, fe :: out.2)

/-- `FeedPoller._poll_feed` (lines 85-123), with the fetch outcome made
explicit: `.error msg` models `_fetch_feed` raising (the message of the
caught exception), `.ok parsed` a successful parse.  `now` is the
timestamp `datetime.datetime.now(...).isoformat()`.  Returns the updated
feed (its `last_poll_time`), the updated `seen_ids` and the emitted
signals in order. -/
def poll_feed (now : String) (feed : Feed) (outcome : Except String ParsedDoc)
    (seen : List String) : Feed × List String × List PollEvent :=
  match outcome with
  | .error msg => (feed, seen, [.feedError feed.url msg])
  | .ok parsed =>
    if parsed.bozo && parsed.entries.isEmpty then
      (feed, seen, [.feedError feed.url (parsed.bozo_exception.getD "Parse error")])
    else
      let out := processEntries feed.url parsed.entries seen
      let feed2 := { feed with last_poll_time := some now }
      (feed2, out.1,
        if out.2.isEmpty then [] else [.newEntriesFound out.2])

/-- The `seen_ids` set after polling a sequence of feeds, each with its
fetch outcome and timestamp (the per-cycle iteration of `run`, threaded
through `_poll_feed`). -/
def pollManySeen : List (Feed × Except String ParsedDoc × String) → List String →
    List String
  | [], seen => seen
  | (f, oc, now) :: rest, seen =>
    pollManySeen rest (poll_feed now f oc seen).2.1

/-- The newness check of `_poll_feed` line 101 (`entry_id in self.seen_ids`):
an id is new exactly when it is not in `seen_ids`. -/
def isNewId (seen : List String) (entry_id : String) : Bool :=
  !(seen.contains entry_id)

/-! ## The `FeedPoller.run` loop (lines 64-83) as a step machine

The loop is modelled at the granularity of its own checkpoints: the top
of the `while` (where `_pause_event.wait()` blocks), each iteration of
the `for feed in self.feeds` loop, and the inter-cycle sleep.  `pause()`
clears the event (here: `paused := true`), `resume()` sets it;
`requestInterruption()` sets `interrupted`.  Both flags are written by
other threads between steps of the loop. -/

/-- Where the `run` loop currently stands. -/
inductive Phase where
  /-- At the top of the `while`, about to block on `_pause_event.wait()`. -/
  | cycleStart
  /-- Inside the `for` loop, with the listed feeds still to poll. -/
  | midCycle (remaining : List Feed)
  /-- In `_interruptible_sleep` after `poll_complete`. -/
  | sleeping
  /-- `run` has returned. -/
  | stopped
deriving DecidableEq

/-- The loop's view of the world: the feed list, the position in the
loop, and the two cross-thread flags. -/
structure LoopState where
  feeds : List Feed
  phase : Phase
  paused : Bool
  interrupted : Bool
deriving DecidableEq

/-- One step of `FeedPoller.run`: `none` when the thread is blocked in
`_pause_event.wait()` or already stopped, otherwise the event
(`some url` when the poll of that feed starts, `none` for internal
moves) and the next state.  Note `_pause_event.wait()` blocks regardless
of `isInterruptionRequested`, and the `for` loop checks only
interruption, never the pause gate. -/
def nextStep (s : LoopState) : Option (Option String × LoopState) :=
  match s.phase with
  | .stopped => none
  | .cycleStart =>
    if s.paused then none
    else if s.interrupted then some (none, { s with phase := .stopped })
    else some (none, { s with phase := .midCycle s.feeds })
  | .midCycle [] => some (none, { s with phase := .sleeping })
  | .midCycle (f :: rest) =>
    if s.interrupted then some (none, { s with phase := .sleeping })
    else if f.enabled then some (some f.url, { s with phase := .midCycle rest })
    else some (none, { s with phase := .midCycle rest })
  | .sleeping =>
    if s.interrupted then some (none, { s with phase := .stopped })
    else some (none, { s with phase := .cycleStart })

/-- The feed polls started within the next `n` steps of the loop (with
the flags left untouched in between). -/
def runStarts : Nat → LoopState → List String
  | 0, _ => []
  | n + 1, s =>
    match nextStep s with
    | none => []
    | some (some u, s') => u :: runStarts n s'
    | some (none, s') => runStarts n s'

/-! ## `src/feed_import.py` -/

/-- Python `pathlib.PurePath.stem` on a file name: the name without its
final suffix (a suffix needs a `.` that is neither the first nor the
last character). -/
def pathStem (name : String) : String :=
  let cs := name.toList
  match cs.reverse.findIdx? (fun c => c = '.') with
  | none => name
  | some k =>
    let i := cs.length - 1 - k
    if 0 < i && i < cs.length - 1 then String.mk (cs.take i) else name

/-- The last path component of a POSIX path string (`pathlib.Path(p).name`
for the file paths the importer receives). -/
def pathNameOf (p : String) : String :=
  String.mk ((splitOnChar '/' p.toList).getLastD p.toList)

/-- `_extract_base_url` from `src/feed_import.py` (lines 95-108): the
`href` of the first `alternate` link with a non-empty `href`, with
trailing `/` stripped; `""` when there is none. -/
def extract_base_url (parsed : ParsedDoc) : String :=
  match parsed.feed_links.find?
      (fun l => l.rel == some "alternate" && !((l.href.getD "").isEmpty)) with
  | some l => String.mk (dropTrailing (fun c => c = '/') (l.href.getD "").toList)
  | none => ""

/-- `_build_feed_url` from `src/feed_import.py` (lines 111-143): prefer
the first `rel=self` link with a truthy `href`; else reconstruct
`<base>/<stem>` from a non-empty base URL, where the stem drops a
parenthesized suffix (`split("(")[0].strip()`); else fall back to the
path string. -/
def build_feed_url (parsed : ParsedDoc) (base_url path : String) : String :=
  match parsed.feed_links.find?
      (fun l => l.rel == some "self" && !((l.href.getD "").isEmpty)) with
  | some l => l.href.getD ""
  | none =>
    if base_url ≠ "" then
      let stem := String.mk (pyStrip isPySpace
        ((pathStem (pathNameOf path)).toList.takeWhile (fun c => c ≠ '(')))
      if stem = "rssAll" || stem = "rssLatest" || stem = "rssFailed" then
        base_url ++ "/" ++ stem
      else
        base_url ++ "/" ++ stem
    else
      path

/-- The greedy walk of lines 179-186: consume alternating
`"job"`/`<name>` segment pairs from the front and stop at the first
segment that breaks the pattern (the loop needs both `parts[i] = "job"`
and a following segment). -/
def jobSegments : List String → List String
  | "job" :: b :: rest => "job" :: b :: jobSegments rest
  | _ => []

/-- Python `title.rsplit("#", 1)[0]`: everything before the last `#`,
or the whole string when there is none. -/
def beforeLastHash (s : String) : String :=
  match splitOnChar '#' s.toList with
  | [] => s
  | [_] => s
  | g :: gs => String.mk (joinWithSep ['#'] ((g :: gs).dropLast))

/-- The job-name cleanup of line 195:
`entry_title.rsplit("#", 1)[0].strip().rstrip("Â»").strip()`
(the `rstrip` argument is the two-character set `{'Â', '»'}`). -/
def cleanJobTitle (entry_title : String) : String :=
  String.mk (pyStrip isPySpace
    (dropTrailing (fun c => c = 'Â' || c = '»')
      (pyStrip isPySpace (beforeLastHash entry_title).toList)))

/-- What one entry contributes to the job map (lines 168-198): `none`
when the link is empty, lacks `/job/`, or yields no job segments;
otherwise the pair of job path and cleaned-up name (falling back to the
last segment when the cleaned title is empty). -/
def entryJobKey (base_url : String) (e : ParsedEntry) : Option (String × String) :=
  let link := e.link.getD ""
  if link = "" || !(strContainsSub link "/job/") then none
  else
    let after_base := pyStrip (fun c => c = '/') (removePrefixL base_url.toList link.toList)
    let segs := jobSegments ((splitOnChar '/' after_base).map String.mk)
    if segs.isEmpty then none
    else
      let job_path := String.intercalate "/" segs
      let cleaned := cleanJobTitle (e.title.getD "")
      let job_name := if cleaned = "" then segs.getLastD "" else cleaned
      some (job_path, job_name)

/-- The `seen_jobs` dict built by the entry loop: insertion order, first
occurrence of a job path wins. -/
def collectJobs (base_url : String) (entries : List ParsedEntry)
    (acc : List (String × String)) : List (String × String) :=
  match entries with
  | [] => acc
  | e :: rest =>
    match entryJobKey base_url e with
    | none => collectJobs base_url rest acc
    | some (p, n) =>
      collectJobs base_url rest
        (if acc.any (fun kv => kv.1 = p) then acc else acc ++ [(p, n)])

/-- Ordering used by `sorted(seen_jobs.items())`: Python compares the
`(key, value)` tuples, which for distinct keys is the key order. -/
def keyLE (a b : String × String) : Prop :=
  a.1 ≤ b.1

instance : DecidableRel keyLE := fun a b => inferInstanceAs (Decidable (a.1 ≤ b.1))

/-- `_extract_job_feeds` from `src/feed_import.py` (lines 146-203):
empty for an empty base URL, otherwise one `Feed` per distinct job
path, URL `<base>/<jobPath>/rssAll`, sorted by job path.  (`sorted` on
the distinct-keyed dict items is modelled by a stable insertion sort on
the key order.) -/
def extract_job_feeds (parsed : ParsedDoc) (base_url : String) : List Feed :=
  if base_url = "" then []
  else
    ((collectJobs base_url parsed.entries []).insertionSort keyLE).map
      (fun pn => { url := base_url ++ "/" ++ pn.1 ++ "/rssAll", name := pn.2 })

/-- `import_local_feed` from `src/feed_import.py` (lines 56-92), given
the `feedparser` result for the file at `path`: fail when the parse is
flagged malformed with no entries and no (truthy) feed title, else the
main feed followed by the extracted per-job feeds. -/
def import_local_feed (parsed : ParsedDoc) (path : String) : Except String (List Feed) :=
  if parsed.bozo && parsed.entries.isEmpty && (parsed.feed_title.getD "") = "" then
    .error ("Cannot parse feed file: " ++ (parsed.bozo_exception.getD "Not a valid feed"))
  else
    let title := parsed.feed_title.getD (pathStem (pathNameOf path))
    let base_url := extract_base_url parsed
    let feed_url := build_feed_url parsed base_url path
    .ok ({ url := feed_url, name := title } :: extract_job_feeds parsed base_url)

/-! ## Spec-side reference definitions (for refinement statements)

These follow the specification's wording, to be compared with the
definitions embedded from the source. -/

/-- Spec wording for §4.6 dedup: distinct keys, first-seen value wins.
`seen` holds the keys already emitted. -/
def dedupFirstAux (seen : List String) : List (String × String) → List (String × String)
  | [] => []
  | kv :: rest =>
    if kv.1 ∈ seen then dedupFirstAux seen rest
    else kv :: dedupFirstAux (kv.1 :: seen) rest

/-- Keep the first occurrence of each key, in order of first appearance. -/
def dedupFirst (l : List (String × String)) : List (String × String) :=
  dedupFirstAux [] l

/-- Spec wording for the job-path shape: alternating `job`/`<name>`
segment pairs, at least one pair. -/
def isJobChain (segs : List String) : Prop :=
  ∃ names : List String, names ≠ [] ∧ segs = names.flatMap (fun n => ["job", n])

/-- The spec's §4.6 canonical-URL rule, in its own words: (1) prefer a
link marked `rel=self`; (2) else, with a base URL present, return
`<baseUrl>/<fileStem>` where the file stem strips any parenthesized
disambiguator suffix; (3) else fall back to the path string. -/
def specFileStem (path : String) : String :=
  String.mk (pyStrip isPySpace
    ((pathStem (pathNameOf path)).toList.takeWhile (fun c => c ≠ '(')))

/-- See `specFileStem`; the first `rel=self` link with a usable `href`
is the first element of the filtered link list. -/
def specFeedUrl (parsed : ParsedDoc) (base_url path : String) : String :=
  match (parsed.feed_links.filter
      (fun l => l.rel == some "self" && !((l.href.getD "").isEmpty))).head? with
  | some l => l.href.getD ""
  | none => if base_url ≠ "" then base_url ++ "/" ++ specFileStem path else path

/-! ## Concrete fixtures used by witnesses and counterexamples -/

/-- A plain enabled feed. -/
def feedA : Feed := { url := "https://a.example/feed", name := "A" }

/-- A second enabled feed, the one `pause` should (per the claim) stop. -/
def feedB : Feed := { url := "https://b.example/feed", name := "B" }

/-- Scenario D document: one `alternate` link to the server root, no
`self` link. -/
def scenarioD_doc : ParsedDoc :=
  { feed_links := [{ rel := some "alternate", href := some "http://localhost:8080/" }] }

/-- A well-formed document whose entries carry no `/job/` links. -/
def noJobsDoc : ParsedDoc :=
  { feed_title := some "Plain feed",
    entries := [{ id := some "e1", link := some "http://localhost:8080/item/1" }] }

/-- A document flagged malformed, with no entries but with a feed
title — the case separating the poller's check from the importer's. -/
def bozoTitledDoc : ParsedDoc :=
  { bozo := true, bozo_exception := some "Bad XML", feed_title := some "My Feed" }

/-- A feed whose in-memory credential fields are populated (the legacy
state `_migrate_plaintext_credentials` exists to clean up). -/
def leakyFeed : Feed :=
  { url := "https://example.com/feed", name := "Test Feed",
    auth_user := some "admin", auth_token := some "secret123" }

/-! ## Helper lemmas -/

theorem startsWithL_append (pat s t : List Char) (h : startsWithL pat s = true) :
    startsWithL pat (s ++ t) = true := by
  induction pat generalizing s with
  | nil => simp [startsWithL]
  | cons p ps ih =>
    cases s with
    | nil => simp [startsWithL] at h
    | cons c cs =>
      simp only [startsWithL, List.cons_append, Bool.and_eq_true] at h ⊢
      exact ⟨h.1, ih cs h.2⟩

theorem containsSubL_nil_pat (b : List Char) : containsSubL [] b = true := by
  cases b <;> simp [containsSubL, startsWithL]

theorem containsSubL_append_of_left (pat a b : List Char)
    (h : containsSubL pat a = true) : containsSubL pat (a ++ b) = true := by
  induction a with
  | nil =>
    simp only [containsSubL, List.isEmpty_iff] at h
    subst h
    simpa using containsSubL_nil_pat b
  | cons c a' ih =>
    simp only [containsSubL, Bool.or_eq_true] at h
    rcases h with h | h
    · have := startsWithL_append pat (c :: a') b h
      simp only [List.cons_append] at this ⊢
      simp [containsSubL, this]
    · simp only [List.cons_append, containsSubL, Bool.or_eq_true]
      exact Or.inr (ih h)

theorem containsSubL_append_of_right (pat a b : List Char)
    (h : containsSubL pat b = true) : containsSubL pat (a ++ b) = true := by
  induction a with
  | nil => simpa using h
  | cons c a' ih =>
    simp only [List.cons_append, containsSubL, Bool.or_eq_true]
    exact Or.inr ih

theorem toList_append (a b : String) : (a ++ b).toList = a.toList ++ b.toList := by
  cases a
  cases b
  rfl

theorem strContainsSub_append_of_left (a b pat : String)
    (h : strContainsSub a pat = true) : strContainsSub (a ++ b) pat = true := by
  unfold strContainsSub at h ⊢
  rw [toList_append]
  exact containsSubL_append_of_left _ _ _ h

theorem strContainsSub_append_of_right (a b pat : String)
    (h : strContainsSub b pat = true) : strContainsSub (a ++ b) pat = true := by
  unfold strContainsSub at h ⊢
  rw [toList_append]
  exact containsSubL_append_of_right _ _ _ h

/-! ## Claims -/

/-- C1: the claim says the dictionary produced by `Feed.to_dict` (and
hence the JSON written by `save_config`) contains no username or token
value regardless of the in-memory `auth_user`/`auth_token` fields.  The
code does the opposite: `Feed.to_dict` serializes both fields verbatim,
so a feed holding plaintext credentials leaks them into the persisted
configuration.  This theorem evaluates the code at the failing input. -/
theorem c1_to_dict_serializes_plaintext_credentials :
    (Feed.to_dict leakyFeed).lookup "auth_user" = some (JVal.jstr "admin") ∧
    (Feed.to_dict leakyFeed).lookup "auth_token" = some (JVal.jstr "secret123") ∧
    save_config_json { feeds := [leakyFeed] } =
      JVal.jobj
        [("poll_interval_secs", .jint 60),
         ("feeds", .jarr [.jobj
           [("url", .jstr "https://example.com/feed"),
            ("name", .jstr "Test Feed"),
            ("enabled", .jbool true),
            ("sound_file", .jnull),
            ("last_poll_time", .jnull),
            ("auth_user", .jstr "admin"),
            ("auth_token", .jstr "secret123")]]),
         ("sound_map", .jobj [("new_entry", .jstr "new_entry.wav"),
                              ("error", .jstr "error.wav")]),
         ("notification_style", .jstr "native")] :=
  ⟨rfl, rfl, rfl⟩

/-- C5: for every URL not starting with `https://`, `store_credentials`
raises (a `ValueError`, the PolicyViolation of the spec) and performs no
keyring write, leaving the secret store unchanged. -/
theorem c5_store_credentials_refuses_non_https (st : SecretStore)
    (url username token : String)
    (h : strStartsWith url "https://" = false) :
    (∃ e, store_credentials url username token = .error e) ∧
    store_credentials_result st url username token = st := by
  constructor
  · refine ⟨"Refusing to store credentials for non-HTTPS URL: " ++ url ++
      ". Credentials must only be sent over encrypted connections.", ?_⟩
    simp [store_credentials, require_https, h]
  · simp [store_credentials_result, store_credentials, require_https, h]

/-- Witness for C5 at `http://example.com/feed`. -/
theorem c5_store_credentials_refuses_non_https_witness :
    strStartsWith "http://example.com/feed" "https://" = false ∧
    ((∃ e, store_credentials "http://example.com/feed" "admin" "tok" = .error e) ∧
     store_credentials_result [] "http://example.com/feed" "admin" "tok" = []) :=
  ⟨by decide,
   c5_store_credentials_refuses_non_https [] "http://example.com/feed" "admin" "tok"
     (by decide)⟩

/-- C3: when credentials exist and the feed URL is not HTTPS,
`_fetch_feed` fails at once with a message mentioning insecure HTTP,
and its effect plan issues no network request. -/
theorem c3_fetch_refuses_insecure_transmission (creds : String × String)
    (url : String) (h : strStartsWith url "https://" = false) :
    ∃ msg, fetch_feed_plan (some creds) url = .refuse msg ∧
      strContainsSub msg "insecure HTTP" = true ∧
      (fetch_feed_plan (some creds) url).networkRequests = [] := by
  obtain ⟨username, token⟩ := creds
  refine ⟨"Refusing to send credentials over insecure HTTP for feed: " ++ url, ?_, ?_, ?_⟩
  · simp [fetch_feed_plan, h]
  · exact strContainsSub_append_of_left _ _ _ (by decide)
  · simp [fetch_feed_plan, h, FetchPlan.networkRequests]

/-- Witness for C3 at the spec's Scenario B URL. -/
theorem c3_fetch_refuses_insecure_transmission_witness :
    strStartsWith "http://insecure.example.com/feed" "https://" = false ∧
    (∃ msg, fetch_feed_plan (some ("user", "pass")) "http://insecure.example.com/feed" =
        .refuse msg ∧
      strContainsSub msg "insecure HTTP" = true ∧
      (fetch_feed_plan (some ("user", "pass"))
          "http://insecure.example.com/feed").networkRequests = []) :=
  ⟨by decide,
   c3_fetch_refuses_insecure_transmission ("user", "pass")
     "http://insecure.example.com/feed" (by decide)⟩

/-- C10: when the fetch raises or the parse result is malformed with no
entries, `_poll_feed` emits exactly one feed-error event and changes
nothing else: the seen-id set and the feed's `last_poll_time` keep
their prior values and no new-entries event is emitted. -/
theorem c10_failed_poll_leaves_state_unchanged (now : String) (feed : Feed)
    (seen : List String) (outcome : Except String ParsedDoc)
    (h : (∃ msg, outcome = .error msg) ∨
      (∃ parsed, outcome = .ok parsed ∧ parsed.bozo = true ∧ parsed.entries = [])) :
    ∃ m, poll_feed now feed outcome seen = (feed, seen, [.feedError feed.url m]) := by
  rcases h with ⟨msg, rfl⟩ | ⟨parsed, rfl, hb, he⟩
  · exact ⟨msg, rfl⟩
  · exact ⟨parsed.bozo_exception.getD "Parse error", by simp [poll_feed, hb, he]⟩

/-- Witness for C10: a network failure on a concrete feed. -/
theorem c10_failed_poll_leaves_state_unchanged_witness :
    ∃ m, poll_feed "2026-01-01T00:00:00+00:00" feedA (.error "Network error") ["old-id"] =
      (feedA, ["old-id"], [.feedError feedA.url m]) :=
  c10_failed_poll_leaves_state_unchanged "2026-01-01T00:00:00+00:00" feedA ["old-id"]
    (.error "Network error") (Or.inl ⟨"Network error", rfl⟩)

theorem processEntries_seen_mono (feed_url : String) (entries : List ParsedEntry)
    (seen : List String) : seen ⊆ (processEntries feed_url entries seen).1 := by
  induction entries generalizing seen with
  | nil => simp [processEntries]
  | cons e rest ih =>
    simp only [processEntries]
    split
    · exact ih seen
    · exact List.Subset.trans (List.subset_cons_self _ _) (ih _)

theorem poll_feed_seen_mono (now : String) (feed : Feed)
    (outcome : Except String ParsedDoc) (seen : List String) :
    seen ⊆ (poll_feed now feed outcome seen).2.1 := by
  rcases outcome with msg | parsed
  · simp [poll_feed]
  · simp only [poll_feed]
    split
    · simp
    · exact processEntries_seen_mono feed.url parsed.entries seen

/-- C6: ids marked seen are never removed — across any sequence of
polls, the seen-id set grows monotonically, and any id present (whether
marked this session or restored from a snapshot) is still reported as
already seen by the newness check afterwards. -/
theorem c6_seen_ids_monotone (polls : List (Feed × Except String ParsedDoc × String))
    (seen : List String) :
    seen ⊆ pollManySeen polls seen ∧
    ∀ e ∈ seen, isNewId (pollManySeen polls seen) e = false := by
  have hsub : seen ⊆ pollManySeen polls seen := by
    induction polls generalizing seen with
    | nil => simp [pollManySeen]
    | cons p rest ih =>
      obtain ⟨f, oc, now⟩ := p
      exact List.Subset.trans (poll_feed_seen_mono now f oc seen) (ih _)
  refine ⟨hsub, fun e he => ?_⟩
  have hmem : e ∈ pollManySeen polls seen := hsub he
  simpa [isNewId] using hmem

/-- Witness for C6: a restored snapshot containing `entry-1`, followed
by a poll that discovers `entry-2`. -/
theorem c6_seen_ids_monotone_witness :
    "entry-1" ∈
      pollManySeen [(feedA, .ok { entries := [{ id := some "entry-2" }] }, "t1")]
        ["entry-1"] ∧
    isNewId (pollManySeen [(feedA, .ok { entries := [{ id := some "entry-2" }] }, "t1")]
        ["entry-1"]) "entry-1" = false :=
  ⟨(c6_seen_ids_monotone _ ["entry-1"]).1 (by simp),
   (c6_seen_ids_monotone _ ["entry-1"]).2 "entry-1" (by simp)⟩

/-- C2 counterexample: the claim says a `pause` issued while a poll
cycle is in progress prevents the next feed in the current cycle from
starting.  In the code the pause gate (`_pause_event.wait()`) is
checked only at the top of the `while` loop, never inside the `for`
loop, so with the pause flag set mid-cycle the next feed still starts:
from the paused state the loop's next step begins polling `feedB`. -/
theorem c2_pause_mid_cycle_counterexample :
    (LoopState.mk [feedA, feedB] (.midCycle [feedB]) true false).paused = true ∧
    nextStep (LoopState.mk [feedA, feedB] (.midCycle [feedB]) true false) =
      some (some "https://b.example/feed",
        LoopState.mk [feedA, feedB] (.midCycle []) true false) ∧
    ¬(∀ s : LoopState, s.paused = true →
        ∀ ev s', nextStep s = some (ev, s') → ev = none) := by
  refine ⟨rfl, rfl, fun hall => ?_⟩
  have h := hall (LoopState.mk [feedA, feedB] (.midCycle [feedB]) true false) rfl
    (some "https://b.example/feed") (LoopState.mk [feedA, feedB] (.midCycle []) true false)
    rfl
  exact Option.noConfusion h

/-- C2 amended: `pause` takes effect at the cycle boundary.  An enabled
feed remaining in the in-progress cycle still starts while paused (the
code never aborts or gates the current cycle), but with the pause flag
set the loop blocks at the top of the next cycle: no step is possible
there, and no feed of any later cycle starts until `resume`. -/
theorem c2_amended_pause_effective_at_cycle_boundary
    (feeds rem : List Feed) (f : Feed) (i : Bool) (n : Nat)
    (hf : f.enabled = true) :
    nextStep (LoopState.mk feeds (.midCycle (f :: rem)) true false) =
      some (some f.url, LoopState.mk feeds (.midCycle rem) true false) ∧
    nextStep (LoopState.mk feeds .cycleStart true i) = none ∧
    runStarts n (LoopState.mk feeds .cycleStart true i) = [] ∧
    runStarts n (LoopState.mk feeds .sleeping true false) = [] := by
  have hblock : nextStep (LoopState.mk feeds Phase.cycleStart true i) = none := by
    simp [nextStep]
  have hcycle : ∀ m i', runStarts m (LoopState.mk feeds Phase.cycleStart true i') = [] := by
    intro m i'
    cases m with
    | zero => rfl
    | succ m' => simp [runStarts, nextStep]
  refine ⟨by simp [nextStep, hf], hblock, hcycle n i, ?_⟩
  cases n with
  | zero => rfl
  | succ m =>
    have hstep : nextStep (LoopState.mk feeds Phase.sleeping true false) =
        some (none, LoopState.mk feeds Phase.cycleStart true false) := by
      simp [nextStep]
    simp [runStarts, hstep, hcycle m false]

/-- Witness for the amended C2 at a concrete state. -/
theorem c2_amended_pause_effective_witness :
    feedB.enabled = true ∧
    (nextStep (LoopState.mk [feedA] (.midCycle [feedB]) true false) =
       some (some feedB.url, LoopState.mk [feedA] (.midCycle []) true false) ∧
     nextStep (LoopState.mk [feedA] .cycleStart true false) = none ∧
     runStarts 5 (LoopState.mk [feedA] .cycleStart true false) = [] ∧
     runStarts 5 (LoopState.mk [feedA] .sleeping true false) = []) :=
  ⟨rfl, c2_amended_pause_effective_at_cycle_boundary [feedA] [] feedB false 5 rfl⟩

/-- C4 counterexample: the claim says the poller treats a parse result
as a hard failure exactly when it is malformed AND has zero entries AND
carries no feed title.  The poller's check (`parsed.bozo and not
parsed.entries`) never consults the title: a malformed, entry-less
document that does carry a title is still reported as a feed error. -/
theorem c4_poller_ignores_title_counterexample :
    (poll_feed "t0" feedA (.ok bozoTitledDoc) []).2.2 =
      [.feedError "https://a.example/feed" "Bad XML"] ∧
    bozoTitledDoc.bozo = true ∧ bozoTitledDoc.entries = [] ∧
    bozoTitledDoc.feed_title = some "My Feed" ∧
    ¬(∀ doc : ParsedDoc,
        (∃ m, (poll_feed "t0" feedA (.ok doc) []).2.2 = [.feedError feedA.url m]) ↔
          (doc.bozo = true ∧ doc.entries = [] ∧ doc.feed_title.getD "" = "")) := by
  refine ⟨rfl, rfl, rfl, rfl, fun hall => ?_⟩
  have h := (hall bozoTitledDoc).mp ⟨"Bad XML", rfl⟩
  exact absurd h.2.2 (by decide)

/-- C4 amended: `import_local_feed` fails with a format error exactly
when the parse is malformed with zero entries and no (truthy) feed
title, while the poller emits a parse-failure feed-error exactly when
the parse is malformed with zero entries, the title never consulted;
an empty-but-well-formed feed is an error in neither place. -/
theorem c4_amended_parse_failure_conditions (doc : ParsedDoc) (path now : String)
    (feed : Feed) (seen : List String) :
    ((∃ e, import_local_feed doc path = .error e) ↔
      (doc.bozo = true ∧ doc.entries = [] ∧ doc.feed_title.getD "" = "")) ∧
    ((∃ m, (poll_feed now feed (.ok doc) seen).2.2 = [.feedError feed.url m]) ↔
      (doc.bozo = true ∧ doc.entries = [])) := by
  constructor
  · constructor
    · rintro ⟨e, he⟩
      unfold import_local_feed at he
      split at he
      · next hc =>
        simp only [Bool.and_eq_true, decide_eq_true_eq, List.isEmpty_iff] at hc
        exact ⟨hc.1.1, hc.1.2, hc.2⟩
      · exact Except.noConfusion he
    · rintro ⟨hb, hent, htitle⟩
      refine ⟨"Cannot parse feed file: " ++ doc.bozo_exception.getD "Not a valid feed", ?_⟩
      simp [import_local_feed, hb, hent, htitle]
  · constructor
    · rintro ⟨m, hm⟩
      unfold poll_feed at hm
      simp only at hm
      split at hm
      · next hc =>
        simp only [Bool.and_eq_true, List.isEmpty_iff] at hc
        exact ⟨hc.1, hc.2⟩
      · split at hm
        · exact List.noConfusion hm
        · simp at hm
    · rintro ⟨hb, hent⟩
      exact ⟨doc.bozo_exception.getD "Parse error", by simp [poll_feed, hb, hent]⟩

/-- C9: `validate_feed_url` is a pure function checking its rules in
order: empty or whitespace-only input yields an error containing
"empty"; otherwise a parsed scheme outside {http, https} yields an
error containing "not allowed"; otherwise an empty network location
yields an error mentioning "hostname"; otherwise no error. -/
theorem c9_validate_feed_url_rules (url : String) :
    ((url = "" ∨ pyStrip isPySpace url.toList = []) →
      ∃ e, validate_feed_url url = some e ∧ strContainsSub e "empty" = true) ∧
    (¬(url = "" ∨ pyStrip isPySpace url.toList = []) →
      ¬((urlsplit url).scheme = "http" ∨ (urlsplit url).scheme = "https") →
      ∃ e, validate_feed_url url = some e ∧ strContainsSub e "not allowed" = true) ∧
    (¬(url = "" ∨ pyStrip isPySpace url.toList = []) →
      ((urlsplit url).scheme = "http" ∨ (urlsplit url).scheme = "https") →
      (urlsplit url).netloc = "" →
      ∃ e, validate_feed_url url = some e ∧ strContainsSub e "hostname" = true) ∧
    (¬(url = "" ∨ pyStrip isPySpace url.toList = []) →
      ((urlsplit url).scheme = "http" ∨ (urlsplit url).scheme = "https") →
      (urlsplit url).netloc ≠ "" →
      validate_feed_url url = none) := by
  refine ⟨fun h => ?_, fun h1 h2 => ?_, fun h1 h2 h3 => ?_, fun h1 h2 h3 => ?_⟩
  · refine ⟨"URL must not be empty.", ?_, by decide⟩
    rcases h with h | h
    · simp [validate_feed_url, h]
    · have hd : pyStrip isPySpace url.data = [] := h
      simp [validate_feed_url, h, hd]
  · push_neg at h1 h2
    have hd : ¬pyStrip isPySpace url.data = [] := h1.2
    refine ⟨"URL scheme '" ++ (urlsplit url).scheme ++ "' is not allowed. " ++
      "Only http:// and https:// feed URLs are supported.", ?_, ?_⟩
    · simp [validate_feed_url, h1.1, hd, h2.1, h2.2]
    · exact strContainsSub_append_of_left _ _ _
        (strContainsSub_append_of_right _ _ _ (by decide))
  · push_neg at h1
    have hd : ¬pyStrip isPySpace url.data = [] := h1.2
    refine ⟨"URL must include a hostname.", ?_, by decide⟩
    rcases h2 with h2 | h2 <;> simp [validate_feed_url, h1.1, hd, h2, h3]
  · push_neg at h1
    have hd : ¬pyStrip isPySpace url.data = [] := h1.2
    rcases h2 with h2 | h2 <;> simp [validate_feed_url, h1.1, hd, h2, h3]

/-- Witness for C9: one concrete URL per rule (whitespace-only input,
`ftp` scheme, scheme without host, and a fully valid feed URL). -/
theorem c9_validate_feed_url_rules_witness :
    (∃ e, validate_feed_url "   " = some e ∧ strContainsSub e "empty" = true) ∧
    (∃ e, validate_feed_url "ftp://host/feed" = some e ∧
      strContainsSub e "not allowed" = true) ∧
    (∃ e, validate_feed_url "https://" = some e ∧ strContainsSub e "hostname" = true) ∧
    validate_feed_url "https://example.com/feed.atom" = none :=
  ⟨(c9_validate_feed_url_rules "   ").1 (by right; decide),
   (c9_validate_feed_url_rules "ftp://host/feed").2.1 (by decide) (by decide),
   (c9_validate_feed_url_rules "https://").2.2.1 (by decide) (by decide) (by decide),
   (c9_validate_feed_url_rules "https://example.com/feed.atom").2.2.2
     (by decide) (by decide) (by decide)⟩

theorem find?_eq_head?_filter {α : Type} (p : α → Bool) (l : List α) :
    l.find? p = (l.filter p).head? := by
  induction l with
  | nil => rfl
  | cons a l ih =>
    by_cases h : p a
    · simp [List.find?, List.filter, h]
    · simp only [List.find?, List.filter, h]
      simp only [Bool.false_eq_true, ite_false] at *
      exact ih

/-- C8: the canonical URL derived by `importLocalFeed` agrees with the
spec's rule — prefer the first `rel=self` link, else `<base>/<fileStem>`
with any parenthesized suffix stripped from the stem, else the path
string — and on Scenario D (`rssAll(3).atom`, alternate link
`http://localhost:8080/`, no self link) it yields
`http://localhost:8080/rssAll`. -/
theorem c8_feed_url_derivation (parsed : ParsedDoc) (base_url path : String) :
    build_feed_url parsed base_url path = specFeedUrl parsed base_url path ∧
    extract_base_url scenarioD_doc = "http://localhost:8080" ∧
    build_feed_url scenarioD_doc (extract_base_url scenarioD_doc) "rssAll(3).atom" =
      "http://localhost:8080/rssAll" := by
  refine ⟨?_, by decide, by decide⟩
  unfold build_feed_url specFeedUrl specFileStem
  rw [← find?_eq_head?_filter]
  rcases hfind : parsed.feed_links.find?
      (fun l => l.rel == some "self" && !((l.href.getD "").isEmpty)) with _ | l
  · simp only [hfind]
    split
    · simp only [ite_self]
    · rfl
  · simp [hfind]

theorem mem_of_mem_dedupFirstAux (seen : List String) (l : List (String × String))
    (kv : String × String) (h : kv ∈ dedupFirstAux seen l) : kv ∈ l := by
  induction l generalizing seen with
  | nil => simp [dedupFirstAux] at h
  | cons kv' rest ih =>
    simp only [dedupFirstAux] at h
    by_cases hm : kv'.1 ∈ seen
    · rw [if_pos hm] at h
      exact List.mem_cons_of_mem _ (ih seen h)
    · rw [if_neg hm] at h
      rcases List.mem_cons.mp h with rfl | h
      · exact List.mem_cons_self _ _
      · exact List.mem_cons_of_mem _ (ih _ h)

theorem dedupFirstAux_congr (s1 s2 : List String)
    (h : ∀ x, x ∈ s1 ↔ x ∈ s2) (l : List (String × String)) :
    dedupFirstAux s1 l = dedupFirstAux s2 l := by
  induction l generalizing s1 s2 with
  | nil => rfl
  | cons kv rest ih =>
    simp only [dedupFirstAux]
    by_cases hm : kv.1 ∈ s1
    · rw [if_pos hm, if_pos ((h kv.1).mp hm)]
      exact ih s1 s2 h
    · rw [if_neg hm, if_neg (fun hx => hm ((h kv.1).mpr hx))]
      have hcons : ∀ x, x ∈ kv.1 :: s1 ↔ x ∈ kv.1 :: s2 := by
        intro x
        simp [List.mem_cons, h x]
      rw [ih _ _ hcons]

theorem any_fst_iff_mem_map (acc : List (String × String)) (p : String) :
    acc.any (fun kv => kv.1 = p) = true ↔ p ∈ acc.map Prod.fst := by
  simp only [List.any_eq_true, List.mem_map, decide_eq_true_eq]

theorem collectJobs_eq_dedupFirstAux (base : String) (entries : List ParsedEntry)
    (acc : List (String × String)) :
    collectJobs base entries acc =
      acc ++ dedupFirstAux (acc.map Prod.fst) (entries.filterMap (entryJobKey base)) := by
  induction entries generalizing acc with
  | nil => simp [collectJobs, dedupFirstAux]
  | cons e rest ih =>
    simp only [collectJobs]
    rcases hk : entryJobKey base e with _ | ⟨p, n⟩
    · simp [List.filterMap_cons, hk, ih]
    · simp only [List.filterMap_cons, hk]
      by_cases hmem : acc.any (fun kv => kv.1 = p) = true
      · rw [if_pos hmem, ih acc]
        simp only [dedupFirstAux,
          if_pos ((any_fst_iff_mem_map acc p).mp hmem)]
      · rw [if_neg hmem, ih (acc ++ [(p, n)])]
        simp only [dedupFirstAux]
        rw [if_neg (fun hx => hmem ((any_fst_iff_mem_map acc p).mpr hx))]
        have hsetsEq : ∀ x, x ∈ (acc ++ [(p, n)]).map Prod.fst ↔ x ∈ p :: acc.map Prod.fst := by
          intro x
          simp [List.mem_append, List.mem_cons, or_comm]
        rw [dedupFirstAux_congr _ _ hsetsEq]
        simp [List.append_assoc]

theorem dedupFirstAux_keys_nodup (l : List (String × String)) (seen : List String) :
    ((dedupFirstAux seen l).map Prod.fst).Nodup ∧
    ∀ kv ∈ dedupFirstAux seen l, kv.1 ∉ seen := by
  induction l generalizing seen with
  | nil => simp [dedupFirstAux]
  | cons kv rest ih =>
    simp only [dedupFirstAux]
    by_cases hm : kv.1 ∈ seen
    · rw [if_pos hm]
      exact ih seen
    · rw [if_neg hm]
      obtain ⟨hnd, hout⟩ := ih (kv.1 :: seen)
      refine ⟨?_, ?_⟩
      · simp only [List.map_cons, List.nodup_cons]
        refine ⟨fun hx => ?_, hnd⟩
        obtain ⟨kv', hkv', heq⟩ := List.mem_map.mp hx
        exact hout kv' hkv' (heq ▸ List.mem_cons_self _ _)
      · intro kv' hkv'
        rcases List.mem_cons.mp hkv' with rfl | h
        · exact hm
        · exact fun hs => hout kv' h (List.mem_cons_of_mem _ hs)

theorem jobSegments_shape : ∀ l : List String,
    jobSegments l = [] ∨ isJobChain (jobSegments l)
  | [] => Or.inl rfl
  | [x] => by
    left
    rw [jobSegments.eq_def]
    split
    · next heq => exact absurd heq (by simp)
    · rfl
  | x :: b :: rest => by
    by_cases hx : x = "job"
    · subst hx
      right
      rw [show jobSegments ("job" :: b :: rest) = "job" :: b :: jobSegments rest from rfl]
      rcases jobSegments_shape rest with h | ⟨names, hne, heq⟩
      · exact ⟨[b], by simp, by simp [h]⟩
      · exact ⟨b :: names, by simp, by simp [heq]⟩
    · left
      rw [jobSegments.eq_def]
      split
      · next heq =>
        exact absurd heq (by simp [hx])
      · rfl

theorem entryJobKey_path_shape (base : String) (e : ParsedEntry) (p n : String)
    (h : entryJobKey base e = some (p, n)) :
    ∃ segs, isJobChain segs ∧ p = String.intercalate "/" segs := by
  simp only [entryJobKey] at h
  split at h
  · exact Option.noConfusion h
  · split at h
    · exact Option.noConfusion h
    · next hne =>
      simp only [Option.some.injEq, Prod.mk.injEq] at h
      obtain ⟨hp, -⟩ := h
      refine ⟨jobSegments ((splitOnChar '/'
        (pyStrip (fun c => c = '/')
          (removePrefixL base.toList (e.link.getD "").toList))).map String.mk), ?_, hp.symm⟩
      rcases jobSegments_shape ((splitOnChar '/'
          (pyStrip (fun c => c = '/')
            (removePrefixL base.toList (e.link.getD "").toList))).map String.mk) with
        hnil | hchain
      · rw [hnil] at hne
        simp at hne
      · exact hchain

instance : IsTotal (String × String) keyLE :=
  ⟨fun a b => le_total a.1 b.1⟩

instance : IsTrans (String × String) keyLE :=
  ⟨fun _ _ _ h1 h2 => le_trans h1 h2⟩

/-- C7: the per-job feeds derived by `_extract_job_feeds` are, exactly,
the first-seen-wins deduplication of each entry's contributed
`(jobPath, title)` pair (base prefix stripped, alternating `job/<name>`
segments walked greedily from the front), sorted by job path, each
emitted as `<base>/<jobPath>/rssAll`; every emitted job path is an
alternating job chain, the paths are distinct and sorted, and a feed
whose entries have no `/job/` links yields no extra feeds. -/
theorem c7_job_feed_extraction (parsed : ParsedDoc) (base_url : String)
    (hb : base_url ≠ "") :
    extract_job_feeds parsed base_url =
      ((dedupFirst (parsed.entries.filterMap (entryJobKey base_url))).insertionSort
        keyLE).map
        (fun pn => { url := base_url ++ "/" ++ pn.1 ++ "/rssAll", name := pn.2 }) ∧
    List.Sorted keyLE
      ((dedupFirst (parsed.entries.filterMap (entryJobKey base_url))).insertionSort keyLE) ∧
    (((dedupFirst (parsed.entries.filterMap (entryJobKey base_url))).insertionSort
        keyLE).map Prod.fst).Nodup ∧
    (∀ kv ∈ (dedupFirst (parsed.entries.filterMap (entryJobKey base_url))).insertionSort
        keyLE,
      ∃ segs, isJobChain segs ∧ kv.1 = String.intercalate "/" segs) ∧
    ((∀ e ∈ parsed.entries, strContainsSub (e.link.getD "") "/job/" = false) →
      extract_job_feeds parsed base_url = []) := by
  have hcoll : collectJobs base_url parsed.entries [] =
      dedupFirst (parsed.entries.filterMap (entryJobKey base_url)) := by
    simpa [dedupFirst] using collectJobs_eq_dedupFirstAux base_url parsed.entries []
  have hmain : extract_job_feeds parsed base_url =
      ((dedupFirst (parsed.entries.filterMap (entryJobKey base_url))).insertionSort
        keyLE).map
        (fun pn => { url := base_url ++ "/" ++ pn.1 ++ "/rssAll", name := pn.2 }) := by
    rw [extract_job_feeds, if_neg hb, hcoll]
  refine ⟨hmain, List.sorted_insertionSort keyLE _, ?_, ?_, ?_⟩
  · have hperm : List.Perm
        ((dedupFirst (parsed.entries.filterMap (entryJobKey base_url))).insertionSort keyLE)
        (dedupFirst (parsed.entries.filterMap (entryJobKey base_url))) :=
      List.perm_insertionSort keyLE _
    exact ((hperm.map Prod.fst).nodup_iff).mpr
      (dedupFirstAux_keys_nodup (parsed.entries.filterMap (entryJobKey base_url)) []).1
  · intro kv hkv
    have h1 : kv ∈ dedupFirst (parsed.entries.filterMap (entryJobKey base_url)) :=
      (List.perm_insertionSort keyLE _).mem_iff.mp hkv
    have h2 : kv ∈ parsed.entries.filterMap (entryJobKey base_url) :=
      mem_of_mem_dedupFirstAux [] _ kv h1
    obtain ⟨e, _, hk⟩ := List.mem_filterMap.mp h2
    obtain ⟨segs, hchain, hpath⟩ := entryJobKey_path_shape base_url e kv.1 kv.2 hk
    exact ⟨segs, hchain, hpath⟩
  · intro hnone
    have hfm : parsed.entries.filterMap (entryJobKey base_url) = [] := by
      rw [List.filterMap_eq_nil_iff]
      intro e he
      unfold entryJobKey
      rw [if_pos]
      simp [hnone e he]
    rw [hmain, hfm]
    rfl

/-- Witness for C7: a non-empty base URL and a document whose entries
carry no `/job/` links yield no extra feeds. -/
theorem c7_job_feed_extraction_witness :
    ("http://localhost:8080" : String) ≠ "" ∧
    extract_job_feeds noJobsDoc "http://localhost:8080" = [] :=
  ⟨by decide,
   (c7_job_feed_extraction noJobsDoc "http://localhost:8080" (by decide)).2.2.2.2
     (by decide)⟩

end Jinkies
